import Mathlib

/-!
Verification of the batch classification pipeline (llm-match-foodstyles).

The development shallowly embeds the pure logic of:
  * lib/openai.ts  — confidence parsing, heuristic extraction, strict
    validation, the retry wrapper, the per-row fallback, the worker pool
    and the per-chunk metrics;
  * app/api/start/route.ts — the chunk planner and the run-log append
    control flow;
  * app/api/run-history/route.ts — the logical-run reconstructor.

External platform primitives (the JSON parser, Date.parse, the network
call itself) are modelled as explicit inputs to the embedded functions;
everything else is translated from the source.  JS numbers are modelled
as rationals; the numeral parsers first produce their digit captures as
naturals and convert at the end, which keeps them executable by `decide`.
-/


/-- The JS regex class `\s` restricted to the ASCII whitespace characters
that can actually occur in the strings this program handles. -/
def isJsSpace (c : Char) : Bool :=
  c = ' ' || c = '\t' || c = '\n' || c = '\r' || c = '\x0b' || c = '\x0c'

/-- Model of `String.prototype.trim`: drop whitespace from both ends. -/
def trimChars (l : List Char) : List Char :=
  ((l.dropWhile isJsSpace).reverse.dropWhile isJsSpace).reverse

/-- Numeric value of a decimal digit character. -/
def digitVal (c : Char) : ℕ := c.toNat - ('0').toNat

/-- Value of a list of decimal digit characters, most significant first. -/
def digitsToNat (l : List Char) : ℕ := l.foldl (fun a c => a * 10 + digitVal c) 0

/-- Digit-level decomposition of a decimal numeral:
sign, integer part, fractional part and its digit count. -/
structure JsNumParts where
  neg : Bool
  intPart : ℕ
  fracPart : ℕ
  fracLen : ℕ
deriving DecidableEq

/-- Parsing stage of the platform conversion `Number(string)`, restricted
to the decimal numerals that occur as config values in this repository:
optional surrounding whitespace, an optional sign, then digits with an
optional fractional part.  `none` where `Number` yields `NaN` (every
caller treats `NaN` as "not finite").  The empty or all-whitespace string
converts to `0`, as in JS. -/
def jsNumberParse (s : String) : Option JsNumParts :=
  let l := trimChars s.data
  if l = [] then some ⟨false, 0, 0, 0⟩
  else
    let neg : Bool := match l with
      | '-' :: _ => true
      | _ => false
    let l2 : List Char := match l with
      | '-' :: rest => rest
      | '+' :: rest => rest
      | _ => l
    let intPart := l2.takeWhile Char.isDigit
    let rest := l2.dropWhile Char.isDigit
    match rest with
    | [] => if intPart = [] then none else some ⟨neg, digitsToNat intPart, 0, 0⟩
    | '.' :: fr =>
        let frac := fr.takeWhile Char.isDigit
        let rest2 := fr.dropWhile Char.isDigit
        if rest2 = [] ∧ (intPart ≠ [] ∨ frac ≠ []) then
          some ⟨neg, digitsToNat intPart, digitsToNat frac, frac.length⟩
        else none
    | _ => none

/-- Numeric value of a parsed decimal numeral. -/
def partsToRat (p : JsNumParts) : ℚ :=
  (if p.neg then -1 else 1) * ((p.intPart : ℚ) + (p.fracPart : ℚ) / (10 : ℚ) ^ p.fracLen)

/-- Model of `Number(string)` on the decimal numerals this repository
feeds it; `none` stands for `NaN`. -/
def jsNumber (s : String) : Option ℚ :=
  (jsNumberParse s).map partsToRat

/-- Case-insensitive literal matcher: if lowercasing the head of `l`
yields `pat`, return the remainder of `l`; otherwise `none`.
(`pat` is given already lowercased.) -/
def lowerEq : List Char → List Char → Option (List Char)
  | [], rest => some rest
  | _ :: _, [] => none
  | p :: ps, c :: cs => if c.toLower = p then lowerEq ps cs else none

/-- The second alternative `1(?:\.0+)?` of the confidence-number group:
the captured numeral always converts to the number 1, i.e. capture
value 1 with no fractional scaling. -/
def matchConfOneAlt (l : List Char) : Option (ℕ × ℕ) :=
  match l with
  | '1' :: _ => some (1, 0)
  | _ => none

/-- One attempt, at the head of `l`, of the regex
`confidence\s*=\s*(0\.\d+|1(?:\.0+)?)` with flag `i`
(from `parseConfidence` in lib/openai.ts).  Returns the captured
numeral's digits value `d` and digit count `k`; its numeric value
`Number(m[1])` is `d / 10^k`. -/
def matchConfAt (l : List Char) : Option (ℕ × ℕ) :=
  match lowerEq (("confidence").data) l with
  | none => none
  | some r1 =>
    match r1.dropWhile isJsSpace with
    | '=' :: r3 =>
      let r4 := r3.dropWhile isJsSpace
      match r4 with
      | '0' :: '.' :: r5 =>
          let ds := r5.takeWhile Char.isDigit
          if ds = [] then matchConfOneAlt r4
          else some (digitsToNat ds, ds.length)
      | _ => matchConfOneAlt r4
    | _ => none

/-- First-match scan of a regex over a string: try every start position
from the left, as the JS regex engine does. -/
def scanFirst {α : Type} (m : List Char → Option α) : List Char → Option α
  | [] => none
  | c :: cs =>
    match m (c :: cs) with
    | some v => some v
    | none => scanFirst m cs

/-- Embedding of `parseConfidence` (lib/openai.ts): extract a confidence from notes
such as `confidence=0.87; some explanation...`; `null` when the pattern
does not occur.  The captured numeral is always finite, so the
`Number.isFinite` guard never fires. -/
def parseConfidence (notes : String) : Option ℚ :=
  if notes = "" then none
  else (scanFirst matchConfAt notes.data).map (fun p => (p.1 : ℚ) / (10 : ℚ) ^ p.2)

/-- Verdict values the model can return (lib/types.ts). -/
inductive LlmMatchVerdict
  | SAME
  | DIFFERENT
  | UNSURE
deriving DecidableEq

/-- Embedding of `LlmMatchOutput` (lib/openai.ts): the structured result for one row.
`match_score` is a JS number that the code only ever produces as one of
the integers 0, 1, 2, so it is carried as a natural number. -/
structure LlmMatchOutput where
  verdict : LlmMatchVerdict
  match_score : ℕ
  notes : String
deriving DecidableEq

/-- One attempt, at the head of `l`, of
`"verdict"\s*:\s*"(SAME|DIFFERENT|UNSURE)"` with flag `i`
(from `heuristicExtract`).  The capture is upper-cased by the caller, so
the canonical verdict is returned directly. -/
def matchVerdictAt (l : List Char) : Option LlmMatchVerdict :=
  match lowerEq ('"' :: (("verdict").data ++ ['"'])) l with
  | none => none
  | some r1 =>
    match r1.dropWhile isJsSpace with
    | ':' :: r3 =>
      let r4 := r3.dropWhile isJsSpace
      match r4 with
      | '"' :: r5 =>
        match lowerEq (("same").data) r5 with
        | some ('"' :: _) => some LlmMatchVerdict.SAME
        | _ =>
          match lowerEq (("different").data) r5 with
          | some ('"' :: _) => some LlmMatchVerdict.DIFFERENT
          | _ =>
            match lowerEq (("unsure").data) r5 with
            | some ('"' :: _) => some LlmMatchVerdict.UNSURE
            | _ => none
      | _ => none
    | _ => none

/-- One attempt, at the head of `l`, of `"match_score"\s*:\s*(0|1|2)`
with flag `i` (from `heuristicExtract`).  `Number` of the one-character
capture is the returned natural. -/
def matchScoreAt (l : List Char) : Option ℕ :=
  match lowerEq ('"' :: (("match_score").data ++ ['"'])) l with
  | none => none
  | some r1 =>
    match r1.dropWhile isJsSpace with
    | ':' :: r3 =>
      match r3.dropWhile isJsSpace with
      | '0' :: _ => some 0
      | '1' :: _ => some 1
      | '2' :: _ => some 2
      | _ => none
    | _ => none

/-- One attempt, at the head of `l`, of `"notes"\s*:\s*"([^"]*)"` with
flag `i` (from `heuristicExtract`). -/
def matchNotesAt (l : List Char) : Option String :=
  match lowerEq ('"' :: (("notes").data ++ ['"'])) l with
  | none => none
  | some r1 =>
    match r1.dropWhile isJsSpace with
    | ':' :: r3 =>
      match r3.dropWhile isJsSpace with
      | '"' :: r5 =>
        let body := r5.takeWhile (fun c => c ≠ '"')
        match r5.dropWhile (fun c => c ≠ '"') with
        | '"' :: _ => some (String.mk body)
        | _ => none
      | _ => none
    | _ => none

/-- The three independently-optional fields `heuristicExtract` recovers. -/
structure HeuristicFields where
  verdict : Option LlmMatchVerdict
  match_score : Option ℕ
  notes : Option String
deriving DecidableEq

/-- Embedding of `heuristicExtract` (lib/openai.ts): regex salvage of the three fields
from raw model text; `null` when none of the three patterns matches. -/
def heuristicExtract (content : String) : Option HeuristicFields :=
  if scanFirst matchVerdictAt content.data = none ∧ scanFirst matchScoreAt content.data = none ∧
      scanFirst matchNotesAt content.data = none then none
  else some ⟨scanFirst matchVerdictAt content.data, scanFirst matchScoreAt content.data,
    scanFirst matchNotesAt content.data⟩

/-- ASCII letter, the regex class `[a-zA-Z]`. -/
def isAsciiAlpha (c : Char) : Bool :=
  ('a' ≤ c && c ≤ 'z') || ('A' ≤ c && c ≤ 'Z')

/-- The three-backtick code-fence marker. -/
def fenceChars : List Char := ("```").data

/-- Embedding of `cleanJsonFromContent` (lib/openai.ts): trim; if the text starts with
a code fence, strip the leading fence marker with its language tag and
trailing whitespace, strip a trailing fence marker, and trim again. -/
def cleanJsonFromContent (content : String) : String :=
  let txt := trimChars content.data
  if fenceChars.isPrefixOf txt then
    let a := ((txt.drop 3).dropWhile isAsciiAlpha).dropWhile isJsSpace
    let b := if fenceChars.isSuffixOf a then a.take (a.length - 3) else a
    String.mk (trimChars b)
  else String.mk txt

/-- Abstraction of a field of the object returned by the platform JSON
parser: a string, a number, or any other JSON value. -/
inductive JsVal
  | str (s : String)
  | num (n : ℚ)
  | other
deriving DecidableEq

/-- The three fields the strict path reads off the parsed object. -/
structure JsObj where
  verdict : JsVal
  match_score : JsVal
  notes : JsVal
deriving DecidableEq

/-- Conversion used by the strict path after membership validation. -/
def verdictOfString (s : String) : LlmMatchVerdict :=
  if s = "SAME" then LlmMatchVerdict.SAME
  else if s = "DIFFERENT" then LlmMatchVerdict.DIFFERENT
  else LlmMatchVerdict.UNSURE

/-- The strict-path validation of `runLlmMatchForRow` (lib/types.ts,
lines 493–505): `verdict` must be one of the three verdict strings,
`match_score` one of the numbers 0, 1, 2, and `notes` — replaced by the
empty string when not a string — must be non-empty.  On success the
parsed fields are returned unchanged; consistency between verdict and
score is not checked. -/
def strictValidate (o : JsObj) : Option LlmMatchOutput :=
  let notes : String := match o.notes with
    | JsVal.str s => s
    | _ => ""
  match o.verdict, o.match_score with
  | JsVal.str v, JsVal.num n =>
    if (v = "SAME" ∨ v = "DIFFERENT" ∨ v = "UNSURE") ∧
       (n = 0 ∨ n = 1 ∨ n = 2) ∧ notes ≠ "" then
      some ⟨verdictOfString v,
            if n = 0 then 0 else if n = 1 then 1 else 2,
            notes⟩
    else none
  | _, _ => none

/-- The heuristic acceptance step of `runLlmMatchForRow`: all three
salvaged fields must be present and `notes` must be truthy
(the empty string is falsy in JS). -/
def heuristicAccept (cleaned : String) : Option LlmMatchOutput :=
  match heuristicExtract cleaned with
  | some h =>
    match h.verdict, h.match_score, h.notes with
    | some v, some sc, some nt => if nt ≠ "" then some ⟨v, sc, nt⟩ else none
    | _, _, _ => none
  | none => none

/-- Model of `String(rawContent).slice(0, 200)`. -/
def jsSlice (n : ℕ) (s : String) : String := String.mk (s.data.take n)

/-- Outcome of `callModelForJsonWithRetry` as observed by
`runLlmMatchForRow`: either the call threw (an error whose `message` may
be absent), or it returned text, in which case the platform JSON parse of
the cleaned text either produced an object (its three relevant fields
abstracted as `JsObj`) or threw. -/
inductive RowCallOutcome
  | threw (msg : Option String)
  | content (raw : String) (json : Option JsObj)

/-- The synthetic fallback result of `runLlmMatchForRow` (lib/types.ts,
lines 509–517). -/
def fallbackOutput (msg : Option String) : LlmMatchOutput :=
  ⟨LlmMatchVerdict.UNSURE, 2,
    ("confidence=0.50; Fallback UNSURE due to error: ") ++ msg.getD ("unknown error")⟩

/-- Embedding of `runLlmMatchForRow` (lib/types.ts, lines 456–517), as a function of
the call outcome: strict parse, then heuristic salvage, and the
UNSURE fallback for every failure (thrown call, invalid fields, or
unsalvageable text).  The thrown-error messages of the two parse
failures are the literal messages of the source. -/
def runLlmMatchForRow (rc : RowCallOutcome) : LlmMatchOutput :=
  match rc with
  | RowCallOutcome.threw msg => fallbackOutput msg
  | RowCallOutcome.content raw json =>
    match json with
    | some o =>
      match strictValidate o with
      | some out => out
      | none => fallbackOutput (some ("Model output missing required fields"))
    | none =>
      match heuristicAccept (cleanJsonFromContent raw) with
      | some out => out
      | none =>
        fallbackOutput
          (some (("Model returned non-JSON or badly formatted JSON: ") ++ jsSlice 200 raw))

/-- Substring test, `String.prototype.includes`. -/
def containsSub (needle : List Char) : List Char → Bool
  | [] => needle.isPrefixOf []
  | c :: cs => needle.isPrefixOf (c :: cs) || containsSub needle cs

/-- The error value `isRetryableError` inspects: `status`/`statusCode`
when present, and the stringified `message`. -/
structure JsError where
  status : Option ℚ
  statusCode : Option ℚ
  message : String
deriving DecidableEq

/-- Embedding of `isRetryableError` (lib/openai.ts): 429, 5xx, the designated
empty-content condition, or the transport-error signatures. -/
def isRetryableError (e : JsError) : Bool :=
  let status : Option ℚ := match e.status with
    | some s => some s
    | none => e.statusCode
  let byStatus : Bool := match status with
    | some s => s = 429 || (decide (500 ≤ s) && decide (s < 600))
    | none => false
  byStatus ||
    containsSub (("Empty content from model").data) e.message.data ||
    containsSub (("ETIMEDOUT").data) e.message.data ||
    containsSub (("ECONNRESET").data) e.message.data ||
    containsSub (("ENOTFOUND").data) e.message.data

/-- Embedding of `getNumericConfig` (lib/openai.ts): read a numeric config key with a
fallback and optional clamping.  Missing, empty or non-finite values give
the fallback; otherwise the value is clamped below by `lo` then above by
`hi`. -/
def getNumericConfig (config : String → Option String) (key : String)
    (fallback : ℚ) (lo hi : Option ℚ) : ℚ :=
  match config key with
  | none => fallback
  | some raw =>
    if raw = "" then fallback
    else
      match jsNumber raw with
      | none => fallback
      | some n =>
        let n1 : ℚ := match lo with
          | some m => max m n
          | none => n
        match hi with
        | some m => min m n1
        | none => n1

/-- The retry loop of `callModelForJsonWithRetry` (lib/openai.ts, lines
366–389).  `oracle k` is the outcome of the (k+1)-th call of
`callModelForJsonOnce`; `attempt` counts the failures so far, as in the
source.  Returns the propagated outcome together with the total number of
calls made.  Structural recursion needs fuel; the clamp of `MAX_RETRIES`
to at most 3 means a fuel of 3 is never exhausted (at most 3 retries
follow the initial call), so the fuel-out branch is unreachable from
`callModelForJsonWithRetry`. -/
def retryAux (oracle : ℕ → Except JsError String) (maxRetries : ℚ) :
    ℕ → ℕ → Except JsError String × ℕ
  | attempt, fuel =>
    match oracle attempt with
    | Except.ok s => (Except.ok s, attempt + 1)
    | Except.error e =>
      if isRetryableError e ∧ ((attempt : ℚ) + 1) ≤ maxRetries then
        match fuel with
        | 0 => (Except.error e, attempt + 1)
        | f + 1 => retryAux oracle maxRetries (attempt + 1) f
      else (Except.error e, attempt + 1)

/-- Embedding of `callModelForJsonWithRetry` (lib/openai.ts): the retry budget is
`MAX_RETRIES` from config, default 1, clamped to [0, 3].  (The jittered
backoff delay only suspends the worker and does not affect the result or
the call count.) -/
def callModelForJsonWithRetry (oracle : ℕ → Except JsError String)
    (config : String → Option String) : Except JsError String × ℕ :=
  let maxRetries := getNumericConfig config ("MAX_RETRIES") 1 (some 0) (some 3)
  retryAux oracle maxRetries 0 3

/-- One entry of `updates` in `runLlmMatchBatch`: the originating row's
sheet index paired with the classification fields. -/
structure MatchResultUpdate where
  rowIndex : ℤ
  match_score : ℕ
  verdict : LlmMatchVerdict
  notes : String
deriving DecidableEq

/-- The shared mutable state of the worker pool in `runLlmMatchBatch`
(lib/types.ts, lines 535–554): the claim counter `index`, the `updates`
sink, and how many workers are still running. -/
structure PoolState where
  nextIndex : ℕ
  updates : List MatchResultUpdate
  active : ℕ
deriving DecidableEq

/-- The update pushed for claim index `i`: `rows` lists the sheet row
indices of the input records (the only field of a `DatasetRow` the
dispatcher itself reads); `resultOf i` is the result `runLlmMatchForRow`
returns for record `i` — arbitrary, so row-level failures (fallback
results) are covered. -/
def mkUpdate (rows : List ℤ) (resultOf : ℕ → LlmMatchOutput) (i : ℕ) : MatchResultUpdate :=
  ⟨rows.getD i 0, (resultOf i).match_score, (resultOf i).verdict, (resultOf i).notes⟩

/-- One worker turn: read-and-increment the shared counter (atomic in the
event loop); a claim below the record count awaits its row's result and
pushes one update, a claim beyond it makes the worker break out of its
loop.  Worker identity never enters the shared state, so one step
function covers every interleaving. -/
def poolStep (rows : List ℤ) (resultOf : ℕ → LlmMatchOutput) (s : PoolState) : PoolState :=
  if s.active = 0 then s
  else if s.nextIndex < rows.length then
    ⟨s.nextIndex + 1, s.updates ++ [mkUpdate rows resultOf s.nextIndex], s.active⟩
  else ⟨s.nextIndex + 1, s.updates, s.active - 1⟩

/-- Worker pool size `Math.min(parallel, rows.length || 1)` with
`parallel = Math.max(1, options?.parallel ?? 8)`. -/
def workerCount (parallel : ℕ) (n : ℕ) : ℕ :=
  min (max 1 parallel) (if n = 0 then 1 else n)

/-- The `updates` list produced by `runLlmMatchBatch`'s worker pool on a
completed run: every worker has claimed, processed and then exited, which
takes exactly `rows.length + workerCount` claims in total. -/
def runLlmMatchBatchUpdates (rows : List ℤ) (resultOf : ℕ → LlmMatchOutput)
    (parallel : ℕ) : List MatchResultUpdate :=
  ((poolStep rows resultOf)^[rows.length + workerCount parallel rows.length]
    ⟨0, [], workerCount parallel rows.length⟩).updates

/-- Embedding of `BatchRunMetrics` (lib/openai.ts), without the wall-clock
`duration_ms` field, which is a platform clock reading. -/
structure BatchRunMetrics where
  count_same : ℕ
  count_diff : ℕ
  count_unsure : ℕ
  avg_conf_same : Option ℚ
  avg_conf_diff : Option ℚ
  avg_conf_unsure : Option ℚ
deriving DecidableEq

/-- The accumulator of the metrics loop in `runLlmMatchBatch`
(lib/types.ts, lines 557–590). -/
structure MetricsAcc where
  count_same : ℕ
  count_diff : ℕ
  count_unsure : ℕ
  sum_conf_same : ℚ
  n_conf_same : ℕ
  sum_conf_diff : ℚ
  n_conf_diff : ℕ
  sum_conf_unsure : ℚ
  n_conf_unsure : ℕ
deriving DecidableEq

/-- One iteration of the metrics loop: bump the verdict's count, and when
the confidence parsed, add it into the verdict's sum. -/
def metricsStep (a : MetricsAcc) (u : MatchResultUpdate) : MetricsAcc :=
  match u.verdict, parseConfidence u.notes with
  | LlmMatchVerdict.SAME, some c =>
    { a with count_same := a.count_same + 1,
             sum_conf_same := a.sum_conf_same + c, n_conf_same := a.n_conf_same + 1 }
  | LlmMatchVerdict.SAME, none => { a with count_same := a.count_same + 1 }
  | LlmMatchVerdict.DIFFERENT, some c =>
    { a with count_diff := a.count_diff + 1,
             sum_conf_diff := a.sum_conf_diff + c, n_conf_diff := a.n_conf_diff + 1 }
  | LlmMatchVerdict.DIFFERENT, none => { a with count_diff := a.count_diff + 1 }
  | LlmMatchVerdict.UNSURE, some c =>
    { a with count_unsure := a.count_unsure + 1,
             sum_conf_unsure := a.sum_conf_unsure + c, n_conf_unsure := a.n_conf_unsure + 1 }
  | LlmMatchVerdict.UNSURE, none => { a with count_unsure := a.count_unsure + 1 }

/-- The metrics computation of `runLlmMatchBatch` (lib/types.ts, lines
556–600): fold the loop over `updates`, then divide each confidence sum
by its bucket's parsed-confidence count, `null` when that count is 0. -/
def computeBatchMetrics (updates : List MatchResultUpdate) : BatchRunMetrics :=
  let a := updates.foldl metricsStep ⟨0, 0, 0, 0, 0, 0, 0, 0, 0⟩
  { count_same := a.count_same
    count_diff := a.count_diff
    count_unsure := a.count_unsure
    avg_conf_same := if a.n_conf_same = 0 then none else some (a.sum_conf_same / a.n_conf_same)
    avg_conf_diff := if a.n_conf_diff = 0 then none else some (a.sum_conf_diff / a.n_conf_diff)
    avg_conf_unsure :=
      if a.n_conf_unsure = 0 then none else some (a.sum_conf_unsure / a.n_conf_unsure) }

/-- The spec-side description of a bucket average: the parsed confidences
of the records with the given verdict. -/
def bucketConfs (v : LlmMatchVerdict) (updates : List MatchResultUpdate) : List ℚ :=
  (updates.filter (fun u => u.verdict = v)).filterMap (fun u => parseConfidence u.notes)

/-- The spec-side average: `null` on an empty list, never 0 or NaN. -/
def specAvg (l : List ℚ) : Option ℚ :=
  if l = [] then none else some (l.sum / (l.length : ℚ))

/-- Embedding of `RunHistoryRow` (lib/sheets.ts): one parsed run-log row.  The numeric
fields are whatever numbers the sheet held; the three averages are `null`
when their cell was empty or non-numeric. -/
structure RunHistoryRow where
  timestamp : String
  sheetId : String
  tabName : String
  mode : String
  model : String
  rowsProcessed : ℚ
  count_same : ℚ
  count_diff : ℚ
  count_unsure : ℚ
  avg_conf_same : Option ℚ
  avg_conf_diff : Option ℚ
  avg_conf_unsure : Option ℚ
  duration_ms : ℚ
deriving DecidableEq

/-- Embedding of `sameRunKey` (app/api/run-history/route.ts). -/
def sameRunKey (a b : RunHistoryRow) : Prop :=
  a.sheetId = b.sheetId ∧ a.tabName = b.tabName ∧ a.mode = b.mode ∧ a.model = b.model

instance (a b : RunHistoryRow) : Decidable (sameRunKey a b) := by
  unfold sameRunKey; infer_instance

/-- The aggregated LogicalRun row the endpoint returns:
a `RunHistoryRow` plus the absorbed chunk count and end timestamp. -/
structure LogicalRun extends RunHistoryRow where
  chunks : ℕ
  endedAt : String
deriving DecidableEq

/-- The open-group accumulator `Group` of `groupLogicalRuns`. -/
structure RunGroup where
  base : RunHistoryRow
  chunks : ℕ
  endedAt : String
  rowsProcessed : ℚ
  count_same : ℚ
  count_diff : ℚ
  count_unsure : ℚ
  duration_ms : ℚ
  sum_conf_same : ℚ
  n_conf_same : ℚ
  sum_conf_diff : ℚ
  n_conf_diff : ℚ
  sum_conf_unsure : ℚ
  n_conf_unsure : ℚ
  lastTsMs : Option ℤ
deriving DecidableEq

/-- A bucket's contribution of one log row to the weighted recombination:
`(avg × count, count)` when the average is non-null and the count
positive, `(0, 0)` otherwise. -/
def confContrib (avg : Option ℚ) (count : ℚ) : ℚ × ℚ :=
  match avg with
  | some a => if 0 < count then (a * count, count) else (0, 0)
  | none => (0, 0)

/-- Embedding of `startGroup` (app/api/run-history/route.ts): open a group from one
row.  `toEpoch` is the platform `Date.parse` wrapped by `toEpochMs`
(`null` when the timestamp fails to parse). -/
def startGroup (toEpoch : String → Option ℤ) (r : RunHistoryRow) : RunGroup :=
  { base := r
    chunks := 1
    endedAt := r.timestamp
    rowsProcessed := r.rowsProcessed
    count_same := r.count_same
    count_diff := r.count_diff
    count_unsure := r.count_unsure
    duration_ms := r.duration_ms
    sum_conf_same := (confContrib r.avg_conf_same r.count_same).1
    n_conf_same := (confContrib r.avg_conf_same r.count_same).2
    sum_conf_diff := (confContrib r.avg_conf_diff r.count_diff).1
    n_conf_diff := (confContrib r.avg_conf_diff r.count_diff).2
    sum_conf_unsure := (confContrib r.avg_conf_unsure r.count_unsure).1
    n_conf_unsure := (confContrib r.avg_conf_unsure r.count_unsure).2
    lastTsMs := toEpoch r.timestamp }

/-- The merge branch of the walk: absorb row `r` into the open group. -/
def mergeRow (toEpoch : String → Option ℤ) (g : RunGroup) (r : RunHistoryRow) : RunGroup :=
  { g with
    chunks := g.chunks + 1
    endedAt := r.timestamp
    lastTsMs := toEpoch r.timestamp
    rowsProcessed := g.rowsProcessed + r.rowsProcessed
    count_same := g.count_same + r.count_same
    count_diff := g.count_diff + r.count_diff
    count_unsure := g.count_unsure + r.count_unsure
    duration_ms := g.duration_ms + r.duration_ms
    sum_conf_same := g.sum_conf_same + (confContrib r.avg_conf_same r.count_same).1
    n_conf_same := g.n_conf_same + (confContrib r.avg_conf_same r.count_same).2
    sum_conf_diff := g.sum_conf_diff + (confContrib r.avg_conf_diff r.count_diff).1
    n_conf_diff := g.n_conf_diff + (confContrib r.avg_conf_diff r.count_diff).2
    sum_conf_unsure := g.sum_conf_unsure + (confContrib r.avg_conf_unsure r.count_unsure).1
    n_conf_unsure := g.n_conf_unsure + (confContrib r.avg_conf_unsure r.count_unsure).2 }

/-- Embedding of `finalize` (app/api/run-history/route.ts): close a group, recombining
each bucket's average as weighted sum over weight, `null` when the weight
is 0. -/
def finalizeGroup (g : RunGroup) : LogicalRun :=
  { toRunHistoryRow :=
      { g.base with
        rowsProcessed := g.rowsProcessed
        count_same := g.count_same
        count_diff := g.count_diff
        count_unsure := g.count_unsure
        avg_conf_same :=
          if 0 < g.n_conf_same then some (g.sum_conf_same / g.n_conf_same) else none
        avg_conf_diff :=
          if 0 < g.n_conf_diff then some (g.sum_conf_diff / g.n_conf_diff) else none
        avg_conf_unsure :=
          if 0 < g.n_conf_unsure then some (g.sum_conf_unsure / g.n_conf_unsure) else none
        duration_ms := g.duration_ms }
    chunks := g.chunks
    endedAt := g.endedAt }

/-- One iteration of the walk over the sorted rows (the body of the
`for` loop in `groupLogicalRuns`): merge `r` into the open group iff the
grouping key matches and both timestamps parsed with signed difference at
most `gapMs`; otherwise finalize the open group and start a new one. -/
def groupStep (toEpoch : String → Option ℤ) (gapMs : ℤ)
    (acc : List LogicalRun × Option RunGroup) (r : RunHistoryRow) :
    List LogicalRun × Option RunGroup :=
  match acc with
  | (out, none) => (out, some (startGroup toEpoch r))
  | (out, some g) =>
    let withinGap : Bool :=
      match g.lastTsMs, toEpoch r.timestamp with
      | some a, some b => decide (b - a ≤ gapMs)
      | _, _ => false
    if sameRunKey g.base r ∧ withinGap = true then (out, some (mergeRow toEpoch g r))
    else (out ++ [finalizeGroup g], some (startGroup toEpoch r))

/-- The JS string comparison `a < b` used by the sort comparator, at
code-unit level (lexicographic on the character lists). -/
def jsStrLt : List Char → List Char → Bool
  | [], [] => false
  | [], _ :: _ => true
  | _ :: _, [] => false
  | a :: as, b :: bs => if a < b then true else if b < a then false else jsStrLt as bs

/-- The sort order of `groupLogicalRuns`: `a` may precede `b` unless
`b.timestamp < a.timestamp` (the comparator returns 1 exactly then);
a stable sort with this relation models `Array.prototype.sort`. -/
def rowLe (a b : RunHistoryRow) : Prop :=
  jsStrLt b.timestamp.data a.timestamp.data = false

instance (a b : RunHistoryRow) : Decidable (rowLe a b) := by
  unfold rowLe; infer_instance

/-- Embedding of `groupLogicalRuns` (app/api/run-history/route.ts): sort the log rows
chronologically (by timestamp string), walk them merging
consecutive same-key close-in-time chunk rows, and finalize the last open
group. -/
def groupLogicalRuns (toEpoch : String → Option ℤ) (gapMs : ℤ)
    (rows : List RunHistoryRow) : List LogicalRun :=
  match rows with
  | [] => []
  | _ :: _ =>
    let sorted := List.insertionSort rowLe rows
    let p := sorted.foldl (groupStep toEpoch gapMs) ([], none)
    p.1 ++ (match p.2 with
      | some g => [finalizeGroup g]
      | none => [])

/-- Model of `Math.floor` of a positive JS number as a natural (the
slice and batch sizes are nonnegative wherever this is applied). -/
def ratFloorNat (q : ℚ) : ℕ := (⌊q⌋).toNat

/-- The per-call chunk size derived from `Config.BATCH_SIZE`
(app/api/start/route.ts, lines 76–89): `Math.floor` of a finite positive
configured number, otherwise the default 50. -/
def batchChunkSize (raw : Option String) : ℕ :=
  match raw with
  | none => 50
  | some s =>
    if s = "" then 50
    else
      match jsNumber s with
      | none => 50
      | some n =>
        if 0 < n then (if ratFloorNat n = 0 then 50 else ratFloorNat n) else 50

/-- The chunk planner of the POST /api/start handler
(app/api/start/route.ts, lines 68–93): cap the pending list by the
caller `limit` when it is a positive number, then by the configured
chunk size.  `Array.prototype.slice(0, limit)` truncates a fractional
positive bound toward zero. -/
def planChunk {α : Type} (pending : List α) (limit : Option ℚ)
    (rawBatchSize : Option String) : List α :=
  let rows1 : List α :=
    match limit with
    | some l =>
      if 0 < l ∧ (l < (pending.length : ℚ)) then pending.take (ratFloorNat l) else pending
    | none => pending
  let c := batchChunkSize rawBatchSize
  if c < rows1.length then rows1.take c else rows1

/-- The run-log partition `appendRunLog` selects from the mode tag
(lib/sheets.ts). -/
def runLogTab (mode : String) : String :=
  if mode = ("test") then ("Runs - test") else ("Runs - prod")

/-- The run-log appends of one POST /api/start invocation along its
non-throwing path (app/api/start/route.ts): the handler returns before
`appendRunLog` both when no rows are pending and when the planned chunk
is empty; otherwise it appends one row to the partition of its mode. -/
def startRunLogAppends {α : Type} (pending : List α) (limit : Option ℚ)
    (rawBatchSize : Option String) (mode : String) : List String :=
  if pending.length = 0 then []
  else if (planChunk pending limit rawBatchSize).length = 0 then []
  else [runLogTab mode]

/-- The spec's fixed verdict-to-score mapping
(`SAME→1`, `DIFFERENT→0`, `UNSURE→2`). -/
def verdictScore : LlmMatchVerdict → ℕ
  | LlmMatchVerdict.SAME => 1
  | LlmMatchVerdict.DIFFERENT => 0
  | LlmMatchVerdict.UNSURE => 2

/-- The caller-limit cap of the amended chunk-size formula: a positive
limit caps at its floor; an absent or non-positive limit imposes no cap
(`noCap` stands in for "unbounded", instantiated with the pending
count). -/
def limitCapSpec (noCap : ℕ) (limit : Option ℚ) : ℕ :=
  match limit with
  | some l => if 0 < l then ratFloorNat l else noCap
  | none => noCap

/-- The additive quantities a LogicalRun carries: absorbed chunk rows and
the five summed metrics. -/
structure GroupTotals where
  chunks : ℕ
  rowsProcessed : ℚ
  count_same : ℚ
  count_diff : ℚ
  count_unsure : ℚ
  duration_ms : ℚ
deriving DecidableEq

def addTotals (x y : GroupTotals) : GroupTotals :=
  ⟨x.chunks + y.chunks, x.rowsProcessed + y.rowsProcessed, x.count_same + y.count_same,
   x.count_diff + y.count_diff, x.count_unsure + y.count_unsure,
   x.duration_ms + y.duration_ms⟩

def zeroTotals : GroupTotals := ⟨0, 0, 0, 0, 0, 0⟩

def rowTotals (r : RunHistoryRow) : GroupTotals :=
  ⟨1, r.rowsProcessed, r.count_same, r.count_diff, r.count_unsure, r.duration_ms⟩

def runTotals (x : LogicalRun) : GroupTotals :=
  ⟨x.chunks, x.rowsProcessed, x.count_same, x.count_diff, x.count_unsure, x.duration_ms⟩

def groupTotals (g : RunGroup) : GroupTotals :=
  ⟨g.chunks, g.rowsProcessed, g.count_same, g.count_diff, g.count_unsure, g.duration_ms⟩

def listTotals {α : Type} (f : α → GroupTotals) (l : List α) : GroupTotals :=
  ⟨(l.map fun x => (f x).chunks).sum, (l.map fun x => (f x).rowsProcessed).sum,
   (l.map fun x => (f x).count_same).sum, (l.map fun x => (f x).count_diff).sum,
   (l.map fun x => (f x).count_unsure).sum, (l.map fun x => (f x).duration_ms).sum⟩

def pairTotals (p : List LogicalRun × Option RunGroup) : GroupTotals :=
  addTotals (listTotals runTotals p.1)
    (match p.2 with
      | some g => groupTotals g
      | none => zeroTotals)

/-- A run-log row fixture: same-key rows differing in timestamp. -/
def cexRowA : RunHistoryRow :=
  ⟨("a"), ("s"), ("t"), ("prod"), ("m"), 0, 0, 0, 0, none, none, none, 0⟩

def cexRowB : RunHistoryRow := { cexRowA with timestamp := ("b") }

/-- A timestamp parser under which the string-sorted order disagrees with
the parsed order by far more than the gap (reachable with `Date.parse`
when timestamp formats are mixed). -/
def cexEpoch : String → Option ℤ :=
  fun s => if s = ("a") then some 1000000000 else some 0

/-- The spec's cross-chunk recombination of one bucket's confidence
average: over the chunk summaries `(avg_i, n_i)`, the weighted average
`Σ (avg_i × n_i) / Σ n_i` restricted to entries with a non-null average
and `n_i > 0`, and `null` when the combined denominator is 0. -/
def specCombinedAvg (l : List (Option ℚ × ℚ)) : Option ℚ :=
  if (l.map fun p => match p.1 with
      | some _ => if 0 < p.2 then p.2 else 0
      | none => 0).sum = 0 then none
  else some ((l.map fun p => match p.1 with
      | some a => if 0 < p.2 then a * p.2 else 0
      | none => 0).sum /
    (l.map fun p => match p.1 with
      | some _ => if 0 < p.2 then p.2 else 0
      | none => 0).sum)

/-- Two chunk-log rows of one logical run whose SAME-bucket averages are
0.9 over 2 rows and 0.7 over 3 rows. -/
def exRowA : RunHistoryRow :=
  ⟨("2024-01-01T00:00:00Z"), ("s"), ("t"), ("prod"), ("m"),
    2, 2, 0, 0, some (9/10), none, none, 1000⟩

def exRowB : RunHistoryRow :=
  { exRowA with
    timestamp := ("2024-01-01T00:01:00Z")
    rowsProcessed := 3
    count_same := 3
    avg_conf_same := some (7/10)
    duration_ms := 2000 }

/-- Timestamp parses of the two fixture rows: one minute apart. -/
def exEpoch : String → Option ℤ :=
  fun s => if s = ("2024-01-01T00:00:00Z") then some 0 else some 60000

example : scanFirst matchConfAt (("confidence=0.87; some explanation").data) = some (87, 2) := by
  decide

example : parseConfidence ("confidence=0.87; some explanation") = some (87/100) := by
  have h : scanFirst matchConfAt (("confidence=0.87; some explanation").data) = some (87, 2) := by
    decide
  simp [parseConfidence, h]
  norm_num

example : parseConfidence ("no token here") = none := by
  have h : scanFirst matchConfAt (("no token here").data) = none := by decide
  simp [parseConfidence, h]

example : scanFirst matchConfAt (("see CONFIDENCE = 1.0 above").data) = some (1, 0) := by decide

example : scanFirst matchConfAt (("confidence=1.5; x").data) = some (1, 0) := by decide

example : scanFirst matchConfAt (("confidence=.5; x").data) = none := by decide

example : jsNumberParse ("2") = some ⟨false, 2, 0, 0⟩ := by decide

example : jsNumberParse ("2.5") = some ⟨false, 2, 5, 1⟩ := by decide

example : jsNumberParse ("abc") = none := by decide

example : jsNumberParse ("") = some ⟨false, 0, 0, 0⟩ := by decide

example : jsNumberParse ("-3") = some ⟨true, 3, 0, 0⟩ := by decide

example : jsNumber ("2") = some 2 := by
  have h : jsNumberParse ("2") = some ⟨false, 2, 0, 0⟩ := by decide
  simp [jsNumber, h, partsToRat]

example :
    heuristicExtract ("\"verdict\": \"same\", \"match_score\": 1, \"notes\": \"ok\"") =
      some ⟨some LlmMatchVerdict.SAME, some 1, some ("ok")⟩ := by decide

example : heuristicExtract ("nothing to see") = none := by decide

example : heuristicAccept ("\"verdict\": \"SAME\", \"notes\": \"\"") = none := by decide

example : cleanJsonFromContent ("```json\n[1]\n```") = "[1]" := by decide

example : cleanJsonFromContent ("  plain  ") = "plain" := by decide

example : isRetryableError ⟨some 429, none, ""⟩ = true := by decide

example : isRetryableError ⟨none, some 503, ""⟩ = true := by decide

example : isRetryableError ⟨some 400, none, ("bad request")⟩ = false := by decide

example : isRetryableError ⟨none, none, ("socket ECONNRESET")⟩ = true := by decide

example : planChunk [1, 2, 3] none none = [1, 2, 3] := by decide

example : planChunk (List.range 6) (some 2) none = [0, 1] := by decide

example : planChunk (List.range 6) (some 0) none = List.range 6 := by decide

example : batchChunkSize (some ("7")) = 7 := by
  have h : jsNumberParse ("7") = some ⟨false, 7, 0, 0⟩ := by decide
  simp [batchChunkSize, jsNumber, h, partsToRat, ratFloorNat]

theorem scanFirst_imp {α : Type} {P : α → Prop} (m : List Char → Option α)
    (hm : ∀ l v, m l = some v → P v) :
    ∀ l v, scanFirst m l = some v → P v := by
  intro l
  induction l with
  | nil => intro v h; simp [scanFirst] at h
  | cons c cs ih =>
    intro v h
    unfold scanFirst at h
    rcases hml : m (c :: cs) with _ | w
    · rw [hml] at h; exact ih v h
    · rw [hml] at h; cases h; exact hm (c :: cs) v hml

theorem matchScoreAt_mem (l : List Char) (sc : ℕ) (h : matchScoreAt l = some sc) :
    sc = 0 ∨ sc = 1 ∨ sc = 2 := by
  unfold matchScoreAt at h
  repeat' split at h
  all_goals simp_all

theorem strictValidate_score_mem (o : JsObj) (out : LlmMatchOutput)
    (h : strictValidate o = some out) :
    out.match_score = 0 ∨ out.match_score = 1 ∨ out.match_score = 2 := by
  unfold strictValidate at h
  repeat' split at h
  all_goals (try simp_all)
  all_goals (obtain ⟨-, rfl⟩ := h; simp)

theorem heuristicExtract_score (c : String) (hf : HeuristicFields)
    (h : heuristicExtract c = some hf) :
    hf.match_score = scanFirst matchScoreAt c.data := by
  unfold heuristicExtract at h
  split at h
  · simp at h
  · cases h; rfl

theorem heuristicAccept_score_mem (c : String) (out : LlmMatchOutput)
    (h : heuristicAccept c = some out) :
    out.match_score = 0 ∨ out.match_score = 1 ∨ out.match_score = 2 := by
  unfold heuristicAccept at h
  split at h
  case h_2 => exact absurd h (by simp)
  case h_1 hf hext =>
    split at h
    case h_2 => exact absurd h (by simp)
    case h_1 v sc nt hv hsc hnt =>
      split at h
      · cases h
        have hs := heuristicExtract_score c hf hext
        rw [hsc] at hs
        exact scanFirst_imp matchScoreAt matchScoreAt_mem c.data sc hs.symm
      · exact absurd h (by simp)

/-- C1: the claim that every produced result satisfies the fixed
verdict-to-score mapping is false on the strict-parse path: a model reply
whose fields pass the membership checks but disagree with the mapping —
here verdict SAME with match_score 0 — is returned unchanged. -/
theorem C1_counterexample :
    (runLlmMatchForRow (RowCallOutcome.content ("")
        (some ⟨JsVal.str ("SAME"), JsVal.num 0, JsVal.str ("confidence=0.90; ok")⟩))).verdict =
      LlmMatchVerdict.SAME ∧
    (runLlmMatchForRow (RowCallOutcome.content ("")
        (some ⟨JsVal.str ("SAME"), JsVal.num 0, JsVal.str ("confidence=0.90; ok")⟩))).match_score ≠
      verdictScore
        (runLlmMatchForRow (RowCallOutcome.content ("")
          (some ⟨JsVal.str ("SAME"), JsVal.num 0, JsVal.str ("confidence=0.90; ok")⟩))).verdict := by
  decide

/-- C1 (amended): every result's `match_score` lies in the validated set
0, 1, 2 — the strict and heuristic paths check only membership, not
verdict consistency — and the fallback path does satisfy the fixed
mapping (UNSURE with score 2). -/
theorem C1_amended (rc : RowCallOutcome) (msg : Option String) :
    ((runLlmMatchForRow rc).match_score = 0 ∨ (runLlmMatchForRow rc).match_score = 1 ∨
      (runLlmMatchForRow rc).match_score = 2) ∧
    (runLlmMatchForRow (RowCallOutcome.threw msg)).verdict = LlmMatchVerdict.UNSURE ∧
    (runLlmMatchForRow (RowCallOutcome.threw msg)).match_score =
      verdictScore (runLlmMatchForRow (RowCallOutcome.threw msg)).verdict := by
  refine ⟨?_, by simp [runLlmMatchForRow, fallbackOutput], by simp [runLlmMatchForRow, fallbackOutput, verdictScore]⟩
  match rc with
  | RowCallOutcome.threw m => simp [runLlmMatchForRow, fallbackOutput]
  | RowCallOutcome.content raw json =>
    match json with
    | some o =>
      rcases hv : strictValidate o with _ | out
      · simp [runLlmMatchForRow, hv, fallbackOutput]
      · simpa [runLlmMatchForRow, hv] using strictValidate_score_mem o out hv
    | none =>
      rcases hh : heuristicAccept (cleanJsonFromContent raw) with _ | out
      · simp [runLlmMatchForRow, hh, fallbackOutput]
      · simpa [runLlmMatchForRow, hh] using
          heuristicAccept_score_mem (cleanJsonFromContent raw) out hh

/-- C3: the per-row classification never propagates an error — a thrown
call, a strict-validation failure and an unsalvageable non-JSON reply all
produce the synthetic fallback: verdict UNSURE, score 2, and notes
beginning with the mid-range token followed by the failure description. -/
theorem C3_row_fallback_total (msg : Option String) (raw : String) (o : JsObj) :
    (runLlmMatchForRow (RowCallOutcome.threw msg) = fallbackOutput msg ∧
      (fallbackOutput msg).verdict = LlmMatchVerdict.UNSURE ∧
      (fallbackOutput msg).match_score = 2 ∧
      (("confidence=0.50;").data).isPrefixOf (fallbackOutput msg).notes.data = true) ∧
    (strictValidate o = none →
      runLlmMatchForRow (RowCallOutcome.content raw (some o)) =
        fallbackOutput (some ("Model output missing required fields"))) ∧
    (heuristicAccept (cleanJsonFromContent raw) = none →
      runLlmMatchForRow (RowCallOutcome.content raw none) =
        fallbackOutput
          (some (("Model returned non-JSON or badly formatted JSON: ") ++ jsSlice 200 raw))) := by
  refine ⟨⟨rfl, rfl, rfl, ?_⟩, ?_, ?_⟩
  · show (("confidence=0.50;").data).isPrefixOf
      ((("confidence=0.50; Fallback UNSURE due to error: ") ++ msg.getD ("unknown error")).data) = true
    rw [String.data_append]
    rfl
  · intro hv
    simp [runLlmMatchForRow, hv]
  · intro hh
    simp [runLlmMatchForRow, hh]

theorem C3_row_fallback_total_witness :
    runLlmMatchForRow (RowCallOutcome.threw (some ("boom"))) = fallbackOutput (some ("boom")) ∧
    runLlmMatchForRow (RowCallOutcome.content ("xx")
        (some ⟨JsVal.other, JsVal.other, JsVal.other⟩)) =
      fallbackOutput (some ("Model output missing required fields")) ∧
    runLlmMatchForRow (RowCallOutcome.content ("xx") none) =
      fallbackOutput
        (some (("Model returned non-JSON or badly formatted JSON: ") ++ jsSlice 200 ("xx"))) :=
  ⟨(C3_row_fallback_total (some ("boom")) ("xx") ⟨JsVal.other, JsVal.other, JsVal.other⟩).1.1,
   (C3_row_fallback_total (some ("boom")) ("xx") ⟨JsVal.other, JsVal.other, JsVal.other⟩).2.1
      (by decide),
   (C3_row_fallback_total (some ("boom")) ("xx") ⟨JsVal.other, JsVal.other, JsVal.other⟩).2.2
      (by decide)⟩

theorem confScan_fallback_head (rest : List Char) :
    scanFirst matchConfAt ((("confidence=0.50; Fallback UNSURE due to error: ").data) ++ rest) =
      some (50, 2) := by
  rfl

/-- C10: the fallback notes always parse back to confidence exactly 0.50
— the token sits at position 0, so the first regex match captures `0.50`
no matter what the appended error message is — and a single fallback
update lands in the UNSURE bucket contributing average 0.50, count 1. -/
theorem C10_fallback_confidence (msg : Option String) (i : ℤ) :
    parseConfidence (fallbackOutput msg).notes = some (1/2) ∧
    (fallbackOutput msg).verdict = LlmMatchVerdict.UNSURE ∧
    (computeBatchMetrics [⟨i, (fallbackOutput msg).match_score, (fallbackOutput msg).verdict,
        (fallbackOutput msg).notes⟩]).avg_conf_unsure = some (1/2) ∧
    (computeBatchMetrics [⟨i, (fallbackOutput msg).match_score, (fallbackOutput msg).verdict,
        (fallbackOutput msg).notes⟩]).count_unsure = 1 := by
  have hd : ((("confidence=0.50; Fallback UNSURE due to error: ") ++ msg.getD ("unknown error"))).data =
      (("confidence=0.50; Fallback UNSURE due to error: ").data) ++ (msg.getD ("unknown error")).data :=
    String.data_append _ _
  have hne : (("confidence=0.50; Fallback UNSURE due to error: ") ++ msg.getD ("unknown error")) ≠ "" := by
    simp [String.ext_iff, hd]
  have hpc : parseConfidence (fallbackOutput msg).notes = some (1/2) := by
    show parseConfidence (("confidence=0.50; Fallback UNSURE due to error: ") ++ msg.getD ("unknown error")) = some (1/2)
    rw [parseConfidence, if_neg hne, hd, confScan_fallback_head]
    norm_num
  refine ⟨hpc, rfl, ?_, ?_⟩
  · show (computeBatchMetrics [⟨i, 2, LlmMatchVerdict.UNSURE, (fallbackOutput msg).notes⟩]).avg_conf_unsure = some (1/2)
    simp [computeBatchMetrics, metricsStep, hpc]
  · rfl

/-- C4: `MAX_RETRIES` is read from config with default 1 and clamp
[0, 3]; with budget `m`, a call that always raises a retryable error is
attempted exactly `m + 1` times and the last error is re-raised; with
`MAX_RETRIES=2` that is exactly 3 attempts. -/
theorem C4_retry_count (oracle : ℕ → Except JsError String) (e : ℕ → JsError)
    (config : String → Option String) (m : ℕ)
    (herr : ∀ k, oracle k = Except.error (e k))
    (hretry : ∀ k, isRetryableError (e k) = true)
    (hm : m ≤ 3) :
    (0 ≤ getNumericConfig config ("MAX_RETRIES") 1 (some 0) (some 3) ∧
      getNumericConfig config ("MAX_RETRIES") 1 (some 0) (some 3) ≤ 3) ∧
    retryAux oracle (m : ℚ) 0 3 = (Except.error (e m), m + 1) ∧
    (config ("MAX_RETRIES") = some ("2") →
      callModelForJsonWithRetry oracle config = (Except.error (e 2), 3)) := by
  have hclamp : 0 ≤ getNumericConfig config ("MAX_RETRIES") 1 (some 0) (some 3) ∧
      getNumericConfig config ("MAX_RETRIES") 1 (some 0) (some 3) ≤ 3 := by
    unfold getNumericConfig
    rcases config ("MAX_RETRIES") with _ | raw
    · norm_num
    · simp only []
      split
      · norm_num
      · rcases jsNumber raw with _ | n
        · norm_num
        · constructor
          · exact le_min (by norm_num) (le_max_left 0 n)
          · exact min_le_left 3 _
  have hbudget : ∀ m : ℕ, m ≤ 3 → retryAux oracle (m : ℚ) 0 3 = (Except.error (e m), m + 1) := by
    intro m hm
    interval_cases m
    · norm_num [retryAux, herr, hretry]
    · norm_num [retryAux, herr, hretry]
    · norm_num [retryAux, herr, hretry]
    · norm_num [retryAux, herr, hretry]
  refine ⟨hclamp, hbudget m hm, ?_⟩
  intro hcfg
  have h2 : jsNumber ("2") = some 2 := by
    have h : jsNumberParse ("2") = some ⟨false, 2, 0, 0⟩ := by decide
    simp [jsNumber, h, partsToRat]
  have hmr : getNumericConfig config ("MAX_RETRIES") 1 (some 0) (some 3) = 2 := by
    simp only [getNumericConfig, hcfg, h2]
    rw [if_neg (by decide : ¬("2" : String) = "")]
    norm_num
  unfold callModelForJsonWithRetry
  rw [hmr]
  have := hbudget 2 (by norm_num)
  norm_num at this
  exact this

theorem C4_retry_count_witness :
    retryAux (fun _ => Except.error ⟨some 429, none, ""⟩) ((2 : ℕ) : ℚ) 0 3 =
      (Except.error ⟨some 429, none, ""⟩, 3) ∧
    callModelForJsonWithRetry (fun _ => Except.error ⟨some 429, none, ""⟩)
        (fun k => if k = ("MAX_RETRIES") then some ("2") else none) =
      (Except.error ⟨some 429, none, ""⟩, 3) := by
  have hr : isRetryableError ⟨some 429, none, ""⟩ = true := by decide
  have h := C4_retry_count (fun _ => Except.error ⟨some 429, none, ""⟩)
    (fun _ => ⟨some 429, none, ""⟩)
    (fun k => if k = ("MAX_RETRIES") then some ("2") else none) 2
    (fun _ => rfl) (fun _ => hr) (by norm_num)
  exact ⟨h.2.1, h.2.2 (by decide)⟩

theorem poolStep_iterate_claims (rows : List ℤ) (resultOf : ℕ → LlmMatchOutput) :
    ∀ (k i : ℕ) (u : List MatchResultUpdate) (a : ℕ), a ≠ 0 → i + k ≤ rows.length →
    (poolStep rows resultOf)^[k] ⟨i, u, a⟩ =
      ⟨i + k, u ++ (List.range' i k).map (mkUpdate rows resultOf), a⟩ := by
  intro k
  induction k with
  | zero => intro i u a _ _; simp
  | succ k ih =>
    intro i u a ha hle
    rw [Function.iterate_succ_apply]
    have hstep : poolStep rows resultOf ⟨i, u, a⟩ =
        ⟨i + 1, u ++ [mkUpdate rows resultOf i], a⟩ := by
      unfold poolStep
      rw [if_neg ha, if_pos (by omega : i < rows.length)]
    rw [hstep, ih (i + 1) _ a ha (by omega)]
    simp only [List.range'_succ, List.map_cons, PoolState.mk.injEq]
    refine ⟨by omega, by simp, trivial⟩

theorem poolStep_iterate_drain (rows : List ℤ) (resultOf : ℕ → LlmMatchOutput) :
    ∀ (j i : ℕ) (u : List MatchResultUpdate) (a : ℕ), rows.length ≤ i → j ≤ a →
    (poolStep rows resultOf)^[j] ⟨i, u, a⟩ = ⟨i + j, u, a - j⟩ := by
  intro j
  induction j with
  | zero => intro i u a _ _; simp
  | succ j ih =>
    intro i u a hi hj
    rw [Function.iterate_succ_apply]
    have hstep : poolStep rows resultOf ⟨i, u, a⟩ = ⟨i + 1, u, a - 1⟩ := by
      unfold poolStep
      rw [if_neg (by omega : ¬a = 0), if_neg (by omega : ¬i < rows.length)]
    rw [hstep, ih (i + 1) u (a - 1) (by omega) (by omega)]
    simp only [PoolState.mk.injEq]
    refine ⟨by omega, trivial, by omega⟩

theorem map_getD_range (l : List ℤ) :
    (List.range l.length).map (fun i => l.getD i 0) = l := by
  induction l with
  | nil => simp
  | cons a t ih =>
    rw [List.length_cons, List.range_succ_eq_map]
    have h2 : ∀ ll : List ℕ, ll.map ((fun i => (a :: t).getD i 0) ∘ Nat.succ) =
        ll.map (fun i => t.getD i 0) := by
      intro ll
      apply List.map_congr_left
      intro i _
      simp [List.getD_cons_succ]
    simp only [List.map_cons, List.getD_cons_zero, List.map_map, h2, ih]

/-- C2: on every input list and for every per-record outcome (failures
included) and every parallelism, the pool's completed run pushes exactly
the updates of claim indices 0..n-1 in claim order: one result per input
record, none dropped, none claimed twice. -/
theorem C2_batch_one_result_per_record (rows : List ℤ) (resultOf : ℕ → LlmMatchOutput)
    (parallel : ℕ) :
    runLlmMatchBatchUpdates rows resultOf parallel =
      (List.range rows.length).map (mkUpdate rows resultOf) ∧
    (runLlmMatchBatchUpdates rows resultOf parallel).length = rows.length ∧
    (runLlmMatchBatchUpdates rows resultOf parallel).map (fun u => u.rowIndex) = rows := by
  have hw : workerCount parallel rows.length ≠ 0 := by
    unfold workerCount
    split <;> omega
  have hmain : runLlmMatchBatchUpdates rows resultOf parallel =
      (List.range rows.length).map (mkUpdate rows resultOf) := by
    unfold runLlmMatchBatchUpdates
    rw [Nat.add_comm rows.length (workerCount parallel rows.length),
      Function.iterate_add_apply]
    rw [poolStep_iterate_claims rows resultOf rows.length 0 [] _ hw (by omega)]
    simp only [Nat.zero_add, List.nil_append]
    rw [poolStep_iterate_drain rows resultOf (workerCount parallel rows.length)
      rows.length _ _ (by omega) (le_refl _)]
    simp [List.range_eq_range']
  refine ⟨hmain, ?_, ?_⟩
  · rw [hmain]; simp
  · rw [hmain]
    rw [List.map_map]
    have : ((fun u : MatchResultUpdate => u.rowIndex) ∘ mkUpdate rows resultOf) =
        fun i => rows.getD i 0 := by
      funext i
      simp [mkUpdate]
    rw [this, map_getD_range]

theorem take_stage {α : Type} (m : List α) (c : ℕ) :
    (if c < m.length then m.take c else m) = m.take c := by
  split
  · rfl
  · exact (List.take_of_length_le (by omega)).symm

theorem planChunk_eq_take {α : Type} (pending : List α) (limit : Option ℚ)
    (raw : Option String) :
    planChunk pending limit raw =
      pending.take (min (limitCapSpec pending.length limit) (batchChunkSize raw)) := by
  unfold planChunk limitCapSpec
  rcases limit with _ | l
  all_goals dsimp only
  · rw [take_stage]
    rcases le_or_lt (batchChunkSize raw) pending.length with h | h
    · rw [min_eq_right h]
    · rw [min_eq_left (by omega), List.take_length,
        List.take_of_length_le (by omega)]
  · by_cases hl : 0 < l
    · by_cases hlen : l < (pending.length : ℚ)
      · rw [if_pos (show 0 < l ∧ l < (pending.length : ℚ) from ⟨hl, hlen⟩), if_pos hl,
          take_stage, List.take_take, min_comm (batchChunkSize raw) (ratFloorNat l)]
      · rw [if_neg (show ¬(0 < l ∧ l < (pending.length : ℚ)) from fun hc => hlen hc.2),
          if_pos hl, take_stage]
        have hfloor : pending.length ≤ ratFloorNat l := by
          have h1 : (pending.length : ℚ) ≤ l := le_of_not_lt hlen
          have h2 : (pending.length : ℤ) ≤ ⌊l⌋ := Int.le_floor.mpr (by exact_mod_cast h1)
          unfold ratFloorNat
          omega
        rcases le_or_lt (batchChunkSize raw) (ratFloorNat l) with h | h
        · rw [min_eq_right h]
        · rw [min_eq_left (by omega)]
          rw [List.take_of_length_le (by omega), List.take_of_length_le (by omega)]
    · rw [if_neg (show ¬(0 < l ∧ l < (pending.length : ℚ)) from fun hc => hl hc.1),
        if_neg hl, take_stage]
      rcases le_or_lt (batchChunkSize raw) pending.length with h | h
      · rw [min_eq_right h]
      · rw [min_eq_left (by omega), List.take_length,
          List.take_of_length_le (by omega)]

/-- C5 as stated is false at `limit = 0`: the planner treats a
non-positive caller limit like an absent one (no cap), while the claimed
formula `min(len(pending), limit, chunkSize)` demands an empty chunk. -/
theorem C5_counterexample :
    planChunk [(0 : ℕ), 1] (some 0) none = [0, 1] ∧
    ¬ ((planChunk [(0 : ℕ), 1] (some 0) none).length =
        min (min ([(0 : ℕ), 1].length) 0) (batchChunkSize none)) := by
  constructor
  · decide
  · decide

/-- C5 (amended): the planner returns the prefix of the pending list of
length `min(len(pending), limitCap, chunkSize)` where a positive caller
limit caps at its floor, an absent or non-positive limit imposes no cap,
and the chunk size is the configured `BATCH_SIZE` with fallback 50 for
missing, non-finite or non-positive values. -/
theorem C5_amended {α : Type} (pending : List α) (limit : Option ℚ) (raw : Option String) :
    planChunk pending limit raw =
      pending.take (min (limitCapSpec pending.length limit) (batchChunkSize raw)) ∧
    (planChunk pending limit raw).length =
      min pending.length (min (limitCapSpec pending.length limit) (batchChunkSize raw)) := by
  refine ⟨planChunk_eq_take pending limit raw, ?_⟩
  rw [planChunk_eq_take pending limit raw, List.length_take]
  omega

theorem planChunk_nil {α : Type} (limit : Option ℚ) (raw : Option String) :
    planChunk ([] : List α) limit raw = [] := by
  rw [planChunk_eq_take]
  simp

/-- C9 as stated is false: an invocation that finds zero pending records
returns before `appendRunLog`, so it appends nothing rather than one
entry. -/
theorem C9_counterexample :
    ¬ (∀ (pending : List ℕ) (limit : Option ℚ) (raw : Option String) (mode : String),
        (startRunLogAppends pending limit raw mode).length = 1) := by
  intro h
  have := h [] none none ("prod")
  simp [startRunLogAppends] at this

/-- C9 (amended): an invocation appends exactly one run-log entry — to
the partition selected by its mode tag — iff its planned chunk is
non-empty; invocations with zero pending records or an empty planned
chunk append nothing. -/
theorem C9_amended {α : Type} (pending : List α) (limit : Option ℚ) (raw : Option String)
    (mode : String) :
    startRunLogAppends pending limit raw mode =
      (if (planChunk pending limit raw).length = 0 then [] else [runLogTab mode]) := by
  unfold startRunLogAppends
  by_cases hp : pending.length = 0
  · rw [if_pos hp]
    have : pending = [] := List.length_eq_zero.mp hp
    subst this
    rw [planChunk_nil]
    simp
  · rw [if_neg hp]

theorem addTotals_zero (x : GroupTotals) : addTotals x zeroTotals = x := by
  simp [addTotals, zeroTotals]

theorem addTotals_assoc (x y z : GroupTotals) :
    addTotals (addTotals x y) z = addTotals x (addTotals y z) := by
  simp only [addTotals, GroupTotals.mk.injEq]
  refine ⟨by omega, by ring, by ring, by ring, by ring, by ring⟩

theorem listTotals_nil {α : Type} (f : α → GroupTotals) :
    listTotals f ([] : List α) = zeroTotals := by
  simp [listTotals, zeroTotals]

theorem listTotals_cons {α : Type} (f : α → GroupTotals) (x : α) (l : List α) :
    listTotals f (x :: l) = addTotals (f x) (listTotals f l) := by
  simp [listTotals, addTotals]

theorem listTotals_append {α : Type} (f : α → GroupTotals) (l₁ l₂ : List α) :
    listTotals f (l₁ ++ l₂) = addTotals (listTotals f l₁) (listTotals f l₂) := by
  simp [listTotals, addTotals]

theorem listTotals_perm {α : Type} (f : α → GroupTotals) {l₁ l₂ : List α}
    (h : l₁.Perm l₂) : listTotals f l₁ = listTotals f l₂ := by
  unfold listTotals
  rw [(h.map _).sum_eq, (h.map _).sum_eq, (h.map _).sum_eq, (h.map _).sum_eq,
    (h.map _).sum_eq, (h.map _).sum_eq]

theorem groupTotals_startGroup (toEpoch : String → Option ℤ) (r : RunHistoryRow) :
    groupTotals (startGroup toEpoch r) = rowTotals r := by
  simp [groupTotals, startGroup, rowTotals]

theorem groupTotals_mergeRow (toEpoch : String → Option ℤ) (g : RunGroup) (r : RunHistoryRow) :
    groupTotals (mergeRow toEpoch g r) = addTotals (groupTotals g) (rowTotals r) := by
  simp [groupTotals, mergeRow, rowTotals, addTotals]

theorem runTotals_finalizeGroup (g : RunGroup) :
    runTotals (finalizeGroup g) = groupTotals g := by
  simp [runTotals, finalizeGroup, groupTotals]

theorem pairTotals_groupStep (toEpoch : String → Option ℤ) (gapMs : ℤ)
    (p : List LogicalRun × Option RunGroup) (r : RunHistoryRow) :
    pairTotals (groupStep toEpoch gapMs p r) = addTotals (pairTotals p) (rowTotals r) := by
  rcases p with ⟨out, _ | g⟩
  · simp [groupStep, pairTotals, groupTotals_startGroup, addTotals_zero]
  · simp only [groupStep]
    split
    · simp only [pairTotals, groupTotals_mergeRow]
      rw [addTotals_assoc]
    · simp only [pairTotals, listTotals_append, listTotals_cons, listTotals_nil,
        groupTotals_startGroup, addTotals_zero, runTotals_finalizeGroup]

theorem pairTotals_foldl (toEpoch : String → Option ℤ) (gapMs : ℤ) :
    ∀ (l : List RunHistoryRow) (p : List LogicalRun × Option RunGroup),
    pairTotals (l.foldl (groupStep toEpoch gapMs) p) =
      addTotals (pairTotals p) (listTotals rowTotals l) := by
  intro l
  induction l with
  | nil => intro p; simp [listTotals_nil, addTotals_zero]
  | cons r t ih =>
    intro p
    rw [List.foldl_cons, ih, pairTotals_groupStep, listTotals_cons]
    rw [addTotals_assoc]

theorem sum_map_one {α : Type} (l : List α) : (l.map fun _ => (1 : ℕ)).sum = l.length := by
  induction l with
  | nil => simp
  | cons a t ih => simp [ih, Nat.add_comm]

/-- C8: the logical-run reconstruction is a total, non-overlapping
partition — the absorbed chunk counts over the output sum to the number
of input rows, and each summed metric (rows processed, per-verdict
counts, duration) is preserved. -/
theorem C8_partition_totals (toEpoch : String → Option ℤ) (gapMs : ℤ)
    (rows : List RunHistoryRow) :
    ((groupLogicalRuns toEpoch gapMs rows).map (fun x => x.chunks)).sum = rows.length ∧
    ((groupLogicalRuns toEpoch gapMs rows).map (fun x => x.rowsProcessed)).sum =
      (rows.map (fun r => r.rowsProcessed)).sum ∧
    ((groupLogicalRuns toEpoch gapMs rows).map (fun x => x.count_same)).sum =
      (rows.map (fun r => r.count_same)).sum ∧
    ((groupLogicalRuns toEpoch gapMs rows).map (fun x => x.count_diff)).sum =
      (rows.map (fun r => r.count_diff)).sum ∧
    ((groupLogicalRuns toEpoch gapMs rows).map (fun x => x.count_unsure)).sum =
      (rows.map (fun r => r.count_unsure)).sum ∧
    ((groupLogicalRuns toEpoch gapMs rows).map (fun x => x.duration_ms)).sum =
      (rows.map (fun r => r.duration_ms)).sum := by
  have hmain : listTotals runTotals (groupLogicalRuns toEpoch gapMs rows) =
      listTotals rowTotals rows := by
    match rows with
    | [] => simp [groupLogicalRuns, listTotals_nil]
    | r0 :: rest =>
      have hperm := List.perm_insertionSort rowLe (r0 :: rest)
      have hfold := pairTotals_foldl toEpoch gapMs (List.insertionSort rowLe (r0 :: rest))
        ([], none)
      have hzero : pairTotals (([] : List LogicalRun), (none : Option RunGroup)) = zeroTotals := by
        simp [pairTotals, listTotals_nil, addTotals_zero]
      rcases hsplit : (List.insertionSort rowLe (r0 :: rest)).foldl
          (groupStep toEpoch gapMs) ([], none) with ⟨out, cur⟩
      have htot : pairTotals (out, cur) = listTotals rowTotals (r0 :: rest) := by
        rw [← hsplit, hfold, hzero]
        rw [listTotals_perm rowTotals hperm]
        rw [show addTotals zeroTotals (listTotals rowTotals (r0 :: rest)) =
          addTotals (listTotals rowTotals (r0 :: rest)) zeroTotals from by
            simp [addTotals, zeroTotals]]
        rw [addTotals_zero]
      simp only [groupLogicalRuns]
      rw [hsplit]
      rcases cur with _ | g
      · rw [listTotals_append, listTotals_nil, addTotals_zero]
        simpa [pairTotals, addTotals_zero] using htot
      · rw [listTotals_append, listTotals_cons, listTotals_nil, addTotals_zero,
          runTotals_finalizeGroup]
        simpa [pairTotals] using htot
  refine ⟨?_, ?_, ?_, ?_, ?_, ?_⟩
  · have h := congrArg GroupTotals.chunks hmain
    simpa [listTotals, runTotals, rowTotals, sum_map_one] using h
  · have h := congrArg GroupTotals.rowsProcessed hmain
    simpa [listTotals, runTotals, rowTotals] using h
  · have h := congrArg GroupTotals.count_same hmain
    simpa [listTotals, runTotals, rowTotals] using h
  · have h := congrArg GroupTotals.count_diff hmain
    simpa [listTotals, runTotals, rowTotals] using h
  · have h := congrArg GroupTotals.count_unsure hmain
    simpa [listTotals, runTotals, rowTotals] using h
  · have h := congrArg GroupTotals.duration_ms hmain
    simpa [listTotals, runTotals, rowTotals] using h

/-- C7 as stated — joining iff the key matches and the row's timestamp is
within gapMs of the group's latest — is false: the code compares the
signed difference only, so a row parsing a billion ms earlier than the
group's latest timestamp still merges. -/
theorem C7_counterexample :
    (groupStep cexEpoch 300000 ([], some (startGroup cexEpoch cexRowA)) cexRowB).1 = [] ∧
    cexEpoch cexRowA.timestamp = some 1000000000 ∧
    cexEpoch cexRowB.timestamp = some 0 ∧
    ¬ (|(0 : ℤ) - 1000000000| ≤ 300000) := by
  refine ⟨by decide, by decide, by decide, by decide⟩

/-- C7 (amended): in the walk over sorted rows, a row joins the open
group iff its grouping tuple equals the group's and both timestamps
parsed with signed difference (row minus the group's most recent) at most
`gapMs`; joining means merging into the group, and a row whose timestamp
fails to parse never joins — it finalizes the open group and starts its
own. -/
theorem C7_amended (toEpoch : String → Option ℤ) (gapMs : ℤ)
    (out : List LogicalRun) (g : RunGroup) (r : RunHistoryRow) :
    ((groupStep toEpoch gapMs (out, some g) r).1 = out ↔
      (sameRunKey g.base r ∧ ∃ a b, g.lastTsMs = some a ∧ toEpoch r.timestamp = some b ∧
        b - a ≤ gapMs)) ∧
    ((groupStep toEpoch gapMs (out, some g) r).1 = out →
      groupStep toEpoch gapMs (out, some g) r = (out, some (mergeRow toEpoch g r))) ∧
    (toEpoch r.timestamp = none →
      groupStep toEpoch gapMs (out, some g) r =
        (out ++ [finalizeGroup g], some (startGroup toEpoch r))) := by
  have hmatch : ∀ x y : Option ℤ, ((match x, y with
      | some a, some b => decide (b - a ≤ gapMs)
      | _, _ => false) = true) ↔ (∃ a b, x = some a ∧ y = some b ∧ b - a ≤ gapMs) := by
    intro x y
    rcases x with _ | a <;> rcases y with _ | b <;> simp
  by_cases hc : sameRunKey g.base r ∧ (match g.lastTsMs, toEpoch r.timestamp with
      | some a, some b => decide (b - a ≤ gapMs)
      | _, _ => false) = true
  · have hstep : groupStep toEpoch gapMs (out, some g) r = (out, some (mergeRow toEpoch g r)) := by
      simp only [groupStep]
      rw [if_pos hc]
    refine ⟨?_, fun _ => hstep, ?_⟩
    · rw [hstep]
      simp only [eq_self_iff_true, true_iff]
      exact ⟨hc.1, (hmatch _ _).mp hc.2⟩
    · intro hnone
      exfalso
      have h2 := hc.2
      rw [hnone] at h2
      rcases g.lastTsMs with _ | a <;> simp at h2
  · have hstep : groupStep toEpoch gapMs (out, some g) r =
        (out ++ [finalizeGroup g], some (startGroup toEpoch r)) := by
      simp only [groupStep]
      rw [if_neg hc]
    have hne : (out ++ [finalizeGroup g]) ≠ out := by
      intro h
      have := congrArg List.length h
      simp at this
    refine ⟨?_, ?_, fun _ => hstep⟩
    · rw [hstep]
      constructor
      · intro h
        exact absurd h hne
      · intro h
        exact absurd ⟨h.1, (hmatch _ _).mpr h.2⟩ hc
    · intro h
      rw [hstep] at h
      exact absurd h hne

theorem C7_amended_witness :
    groupStep (fun _ => (none : Option ℤ)) 300000
        ([], some (startGroup (fun _ => none) cexRowA)) cexRowB =
      ([finalizeGroup (startGroup (fun _ => none) cexRowA)],
        some (startGroup (fun _ => none) cexRowB)) :=
  (C7_amended (fun _ => none) 300000 [] (startGroup (fun _ => none) cexRowA) cexRowB).2.2 rfl

theorem metricsFoldl_spec (updates : List MatchResultUpdate) : ∀ a : MetricsAcc,
    updates.foldl metricsStep a =
      ⟨a.count_same + (updates.filter (fun u => u.verdict = LlmMatchVerdict.SAME)).length,
       a.count_diff + (updates.filter (fun u => u.verdict = LlmMatchVerdict.DIFFERENT)).length,
       a.count_unsure + (updates.filter (fun u => u.verdict = LlmMatchVerdict.UNSURE)).length,
       a.sum_conf_same + (bucketConfs LlmMatchVerdict.SAME updates).sum,
       a.n_conf_same + (bucketConfs LlmMatchVerdict.SAME updates).length,
       a.sum_conf_diff + (bucketConfs LlmMatchVerdict.DIFFERENT updates).sum,
       a.n_conf_diff + (bucketConfs LlmMatchVerdict.DIFFERENT updates).length,
       a.sum_conf_unsure + (bucketConfs LlmMatchVerdict.UNSURE updates).sum,
       a.n_conf_unsure + (bucketConfs LlmMatchVerdict.UNSURE updates).length⟩ := by
  induction updates with
  | nil => intro a; simp [bucketConfs]
  | cons u t ih =>
    intro a
    rw [List.foldl_cons, ih]
    rcases hv : u.verdict <;> rcases hc : parseConfidence u.notes with _ | c <;>
      simp only [metricsStep, hv, hc, bucketConfs, List.filter_cons, List.filterMap_cons] <;>
      simp_all [bucketConfs] <;>
      (repeat' apply And.intro) <;>
      (first | omega | ring)

theorem mergeFold_conf (toEpoch : String → Option ℤ) (rs : List RunHistoryRow) :
    ∀ g : RunGroup,
    (rs.foldl (mergeRow toEpoch) g).sum_conf_same =
      g.sum_conf_same + (rs.map (fun x => (confContrib x.avg_conf_same x.count_same).1)).sum ∧
    (rs.foldl (mergeRow toEpoch) g).n_conf_same =
      g.n_conf_same + (rs.map (fun x => (confContrib x.avg_conf_same x.count_same).2)).sum ∧
    (rs.foldl (mergeRow toEpoch) g).sum_conf_diff =
      g.sum_conf_diff + (rs.map (fun x => (confContrib x.avg_conf_diff x.count_diff).1)).sum ∧
    (rs.foldl (mergeRow toEpoch) g).n_conf_diff =
      g.n_conf_diff + (rs.map (fun x => (confContrib x.avg_conf_diff x.count_diff).2)).sum ∧
    (rs.foldl (mergeRow toEpoch) g).sum_conf_unsure =
      g.sum_conf_unsure + (rs.map (fun x => (confContrib x.avg_conf_unsure x.count_unsure).1)).sum ∧
    (rs.foldl (mergeRow toEpoch) g).n_conf_unsure =
      g.n_conf_unsure + (rs.map (fun x => (confContrib x.avg_conf_unsure x.count_unsure).2)).sum := by
  induction rs with
  | nil => intro g; simp
  | cons x t ih =>
    intro g
    rw [List.foldl_cons]
    have h := ih (mergeRow toEpoch g x)
    simp only [List.map_cons, List.sum_cons, mergeRow] at h ⊢
    refine ⟨?_, ?_, ?_, ?_, ?_, ?_⟩ <;>
      (first
        | (rw [h.1]; ring)
        | (rw [h.2.1]; ring)
        | (rw [h.2.2.1]; ring)
        | (rw [h.2.2.2.1]; ring)
        | (rw [h.2.2.2.2.1]; ring)
        | (rw [h.2.2.2.2.2]; ring))

theorem specCombined_den_eq (l : List (Option ℚ × ℚ)) :
    (l.map fun p => match p.1 with
      | some _ => if 0 < p.2 then p.2 else 0
      | none => 0).sum = (l.map fun p => (confContrib p.1 p.2).2).sum := by
  congr 1
  apply List.map_congr_left
  intro p _
  rcases p with ⟨_ | a, c⟩
  · simp [confContrib]
  · simp only [confContrib]
    split <;> simp

theorem specCombined_num_eq (l : List (Option ℚ × ℚ)) :
    (l.map fun p => match p.1 with
      | some a => if 0 < p.2 then a * p.2 else 0
      | none => 0).sum = (l.map fun p => (confContrib p.1 p.2).1).sum := by
  congr 1
  apply List.map_congr_left
  intro p _
  rcases p with ⟨_ | a, c⟩
  · simp [confContrib]
  · simp only [confContrib]
    split <;> simp

theorem confContrib_nonneg (a : Option ℚ) (c : ℚ) : 0 ≤ (confContrib a c).2 := by
  rcases a with _ | v
  · simp [confContrib]
  · simp only [confContrib]
    split
    · rename_i h
      simpa using le_of_lt h
    · simp

theorem specCombinedAvg_rows (f : RunHistoryRow → Option ℚ) (c : RunHistoryRow → ℚ)
    (l : List RunHistoryRow) :
    specCombinedAvg (l.map fun x => (f x, c x)) =
      (if (l.map fun x => (confContrib (f x) (c x)).2).sum = 0 then none
       else some ((l.map fun x => (confContrib (f x) (c x)).1).sum /
         (l.map fun x => (confContrib (f x) (c x)).2).sum)) := by
  unfold specCombinedAvg
  rw [List.map_map, List.map_map]
  have hden : (l.map ((fun p : Option ℚ × ℚ => match p.1 with
      | some _ => if 0 < p.2 then p.2 else 0
      | none => 0) ∘ fun x => (f x, c x))).sum =
      (l.map fun x => (confContrib (f x) (c x)).2).sum := by
    congr 1
    apply List.map_congr_left
    intro x _
    rcases hfx : f x with _ | a
    · simp [confContrib, Function.comp, hfx]
    · simp only [confContrib, Function.comp, hfx]
      split <;> simp
  have hnum : (l.map ((fun p : Option ℚ × ℚ => match p.1 with
      | some a => if 0 < p.2 then a * p.2 else 0
      | none => 0) ∘ fun x => (f x, c x))).sum =
      (l.map fun x => (confContrib (f x) (c x)).1).sum := by
    congr 1
    apply List.map_congr_left
    intro x _
    rcases hfx : f x with _ | a
    · simp [confContrib, Function.comp, hfx]
    · simp only [confContrib, Function.comp, hfx]
      split <;> simp
  rw [hden, hnum]

theorem contribSum_nonneg (f : RunHistoryRow → Option ℚ) (c : RunHistoryRow → ℚ)
    (l : List RunHistoryRow) :
    0 ≤ (l.map fun x => (confContrib (f x) (c x)).2).sum := by
  apply List.sum_nonneg
  intro q hq
  simp only [List.mem_map] at hq
  obtain ⟨x, -, rfl⟩ := hq
  exact confContrib_nonneg _ _

theorem finalize_fold_avg_same (toEpoch : String → Option ℤ) (r : RunHistoryRow)
    (rs : List RunHistoryRow) :
    (finalizeGroup (rs.foldl (mergeRow toEpoch) (startGroup toEpoch r))).avg_conf_same =
      specCombinedAvg ((r :: rs).map fun x => (x.avg_conf_same, x.count_same)) := by
  have h := mergeFold_conf toEpoch rs (startGroup toEpoch r)
  have hn : (rs.foldl (mergeRow toEpoch) (startGroup toEpoch r)).n_conf_same =
      ((r :: rs).map fun x => (confContrib x.avg_conf_same x.count_same).2).sum := by
    rw [h.2.1]
    simp [startGroup]
  have hs : (rs.foldl (mergeRow toEpoch) (startGroup toEpoch r)).sum_conf_same =
      ((r :: rs).map fun x => (confContrib x.avg_conf_same x.count_same).1).sum := by
    rw [h.1]
    simp [startGroup]
  rw [specCombinedAvg_rows (fun x => x.avg_conf_same) (fun x => x.count_same) (r :: rs)]
  simp only [finalizeGroup]
  rw [hn, hs]
  by_cases hz : ((r :: rs).map fun x => (confContrib x.avg_conf_same x.count_same).2).sum = 0
  · rw [if_neg (by rw [hz]; exact lt_irrefl 0), if_pos hz]
  · rw [if_pos (lt_of_le_of_ne
      (contribSum_nonneg (fun x => x.avg_conf_same) (fun x => x.count_same) (r :: rs))
      (Ne.symm hz)), if_neg hz]

theorem finalize_fold_avg_diff (toEpoch : String → Option ℤ) (r : RunHistoryRow)
    (rs : List RunHistoryRow) :
    (finalizeGroup (rs.foldl (mergeRow toEpoch) (startGroup toEpoch r))).avg_conf_diff =
      specCombinedAvg ((r :: rs).map fun x => (x.avg_conf_diff, x.count_diff)) := by
  have h := mergeFold_conf toEpoch rs (startGroup toEpoch r)
  have hn : (rs.foldl (mergeRow toEpoch) (startGroup toEpoch r)).n_conf_diff =
      ((r :: rs).map fun x => (confContrib x.avg_conf_diff x.count_diff).2).sum := by
    rw [h.2.2.2.1]
    simp [startGroup]
  have hs : (rs.foldl (mergeRow toEpoch) (startGroup toEpoch r)).sum_conf_diff =
      ((r :: rs).map fun x => (confContrib x.avg_conf_diff x.count_diff).1).sum := by
    rw [h.2.2.1]
    simp [startGroup]
  rw [specCombinedAvg_rows (fun x => x.avg_conf_diff) (fun x => x.count_diff) (r :: rs)]
  simp only [finalizeGroup]
  rw [hn, hs]
  by_cases hz : ((r :: rs).map fun x => (confContrib x.avg_conf_diff x.count_diff).2).sum = 0
  · rw [if_neg (by rw [hz]; exact lt_irrefl 0), if_pos hz]
  · rw [if_pos (lt_of_le_of_ne
      (contribSum_nonneg (fun x => x.avg_conf_diff) (fun x => x.count_diff) (r :: rs))
      (Ne.symm hz)), if_neg hz]

theorem finalize_fold_avg_unsure (toEpoch : String → Option ℤ) (r : RunHistoryRow)
    (rs : List RunHistoryRow) :
    (finalizeGroup (rs.foldl (mergeRow toEpoch) (startGroup toEpoch r))).avg_conf_unsure =
      specCombinedAvg ((r :: rs).map fun x => (x.avg_conf_unsure, x.count_unsure)) := by
  have h := mergeFold_conf toEpoch rs (startGroup toEpoch r)
  have hn : (rs.foldl (mergeRow toEpoch) (startGroup toEpoch r)).n_conf_unsure =
      ((r :: rs).map fun x => (confContrib x.avg_conf_unsure x.count_unsure).2).sum := by
    rw [h.2.2.2.2.2]
    simp [startGroup]
  have hs : (rs.foldl (mergeRow toEpoch) (startGroup toEpoch r)).sum_conf_unsure =
      ((r :: rs).map fun x => (confContrib x.avg_conf_unsure x.count_unsure).1).sum := by
    rw [h.2.2.2.2.1]
    simp [startGroup]
  rw [specCombinedAvg_rows (fun x => x.avg_conf_unsure) (fun x => x.count_unsure) (r :: rs)]
  simp only [finalizeGroup]
  rw [hn, hs]
  by_cases hz : ((r :: rs).map fun x => (confContrib x.avg_conf_unsure x.count_unsure).2).sum = 0
  · rw [if_neg (by rw [hz]; exact lt_irrefl 0), if_pos hz]
  · rw [if_pos (lt_of_le_of_ne
      (contribSum_nonneg (fun x => x.avg_conf_unsure) (fun x => x.count_unsure) (r :: rs))
      (Ne.symm hz)), if_neg hz]

theorem specAvg_of_sum_len (l : List ℚ) :
    (if l.length = 0 then none else some (l.sum / (l.length : ℚ))) = specAvg l := by
  unfold specAvg
  by_cases h : l = []
  · subst h; simp
  · rw [if_neg h, if_neg (by simpa [List.length_eq_zero] using h)]

/-- C6: per-verdict confidence averages are taken over only the
confidence-bearing records of the bucket and are `null` (never 0 or NaN)
when the bucket has none; cross-chunk recombination follows the weighted
identity `Σ(avg_i × n_i) / Σ(n_i)` over contributing buckets with `null`
on a zero denominator; and the fixture chunks (0.9, n=2) and (0.7, n=3)
recombine through the reconstructor to 0.78. -/
theorem C6_confidence_averages (updates : List MatchResultUpdate)
    (toEpoch : String → Option ℤ) (r : RunHistoryRow) (rs : List RunHistoryRow) :
    ((computeBatchMetrics updates).avg_conf_same =
        specAvg (bucketConfs LlmMatchVerdict.SAME updates) ∧
      (computeBatchMetrics updates).avg_conf_diff =
        specAvg (bucketConfs LlmMatchVerdict.DIFFERENT updates) ∧
      (computeBatchMetrics updates).avg_conf_unsure =
        specAvg (bucketConfs LlmMatchVerdict.UNSURE updates)) ∧
    ((finalizeGroup (rs.foldl (mergeRow toEpoch) (startGroup toEpoch r))).avg_conf_same =
        specCombinedAvg ((r :: rs).map fun x => (x.avg_conf_same, x.count_same)) ∧
      (finalizeGroup (rs.foldl (mergeRow toEpoch) (startGroup toEpoch r))).avg_conf_diff =
        specCombinedAvg ((r :: rs).map fun x => (x.avg_conf_diff, x.count_diff)) ∧
      (finalizeGroup (rs.foldl (mergeRow toEpoch) (startGroup toEpoch r))).avg_conf_unsure =
        specCombinedAvg ((r :: rs).map fun x => (x.avg_conf_unsure, x.count_unsure))) ∧
    ((groupLogicalRuns exEpoch 300000 [exRowA, exRowB]).map (fun x => x.avg_conf_same) =
        [some (39/50)] ∧
      (groupLogicalRuns exEpoch 300000 [exRowA, exRowB]).map (fun x => x.chunks) = [2]) := by
  have hsingle : ∀ updates : List MatchResultUpdate,
      (computeBatchMetrics updates).avg_conf_same =
        specAvg (bucketConfs LlmMatchVerdict.SAME updates) ∧
      (computeBatchMetrics updates).avg_conf_diff =
        specAvg (bucketConfs LlmMatchVerdict.DIFFERENT updates) ∧
      (computeBatchMetrics updates).avg_conf_unsure =
        specAvg (bucketConfs LlmMatchVerdict.UNSURE updates) := by
    intro us
    have hf := metricsFoldl_spec us ⟨0, 0, 0, 0, 0, 0, 0, 0, 0⟩
    unfold computeBatchMetrics
    rw [hf]
    simp only [Nat.zero_add, zero_add]
    exact ⟨specAvg_of_sum_len _, specAvg_of_sum_len _, specAvg_of_sum_len _⟩
  have hle : rowLe exRowA exRowB := by decide
  have hsort : List.insertionSort rowLe [exRowA, exRowB] = [exRowA, exRowB] := by
    simp [List.insertionSort, List.orderedInsert, hle]
  have hc2 : sameRunKey (startGroup exEpoch exRowA).base exRowB ∧
      (match (startGroup exEpoch exRowA).lastTsMs, exEpoch exRowB.timestamp with
        | some a, some b => decide (b - a ≤ (300000 : ℤ))
        | _, _ => false) = true := by
    constructor
    · decide
    · decide
  have hgl : groupLogicalRuns exEpoch 300000 [exRowA, exRowB] =
      [finalizeGroup (mergeRow exEpoch (startGroup exEpoch exRowA) exRowB)] := by
    simp only [groupLogicalRuns]
    rw [hsort]
    simp only [List.foldl_cons, List.foldl_nil, groupStep]
    rw [if_pos hc2]
    rfl
  refine ⟨hsingle updates, ⟨finalize_fold_avg_same toEpoch r rs,
    finalize_fold_avg_diff toEpoch r rs, finalize_fold_avg_unsure toEpoch r rs⟩, ?_, ?_⟩
  · rw [hgl]
    simp only [List.map_cons, List.map_nil]
    norm_num [finalizeGroup, mergeRow, startGroup, confContrib, exRowA, exRowB]
  · rw [hgl]
    simp only [List.map_cons, List.map_nil]
    norm_num [finalizeGroup, mergeRow, startGroup, exRowA, exRowB]
